import Mathlib

/-!
Verification development for the reducer `computeRenderedColumns`
(src/reducers/computeRenderedColumns.js of fixed-data-table-2).

The reducer itself (orchestrator, range calculator, offset/slot assignor,
slot-assignment helper) is translated directly from the source.  Its three
external collaborators live elsewhere in the repository and are modelled from
the specification:

* the Width Oracle (`columnWidths` / `updateColumnWidth`): modelled by the
  state fields `scrollableColumns` (the ordered list of per-column pixel
  widths), `availableScrollWidth` and `maxScrollX`; measuring a column simply
  returns its width;
* the Offset Store (`columnOffsetIntervalTree`): modelled by the same width
  list, with `get` a point query and `sumUntil` a prefix sum;
* the Slot Allocator (`columnBufferSet`, an IntegerBufferSet): modelled as an
  association list of (value, position) pairs with the documented operations.

All JavaScript numbers are modelled as `Int` (widths, being non-negative by
assumption, are stored as `Nat`).  JavaScript objects keyed by numbers
(`columnOffsets`) and sparse arrays (`columnsToRender`) are modelled as
association lists from `Int` keys to `Int` values.
-/

/-- Modelled from the spec: a Column Anchor is either forward-anchored
(`firstIndex` + `firstOffset`) or backward-anchored (`lastIndex`); absent
fields of the anchor object are `none`. -/
structure ColumnAnchor where
  firstIndex : Option Int := none
  firstOffset : Int := 0
  lastIndex : Option Int := none
  deriving DecidableEq, Repr

/-- Modelled from the spec: the Slot Allocator (IntegerBufferSet) tracks a
map from column index (value) to rendering slot (position), stored as an
association list of (value, position) pairs. -/
structure BufferSet where
  entries : List (Int × Int)
  deriving DecidableEq, Repr

/-- Lookup in an association list with `Int` keys (first match wins). -/
def assocGet : List (Int × Int) → Int → Option Int
  | [], _ => none
  | e :: rest, k => if e.1 = k then some e.2 else assocGet rest k

/-- Write through an association list key: replace the first entry with the
given key, or append a new entry.  This models a keyed write `arr[pos] = v`
to a JavaScript sparse array / object. -/
def setSlot : List (Int × Int) → Int → Int → List (Int × Int)
  | [], pos, v => [(pos, v)]
  | e :: rest, pos, v => if e.1 = pos then (pos, v) :: rest else e :: setSlot rest pos v

/-- Modelled from the spec: `getValuePosition(value) -> slot | absent`. -/
def BufferSet.getValuePosition (b : BufferSet) (v : Int) : Option Int :=
  assocGet b.entries v

/-- Modelled from the spec: `getSize()` is the tracked-value count. -/
def BufferSet.getSize (b : BufferSet) : Int :=
  (b.entries.length : Int)

/-- Modelled from the spec: `getNewPositionForValue(value) -> slot` allocates
the next fresh slot (slots are handed out consecutively from 0). -/
def BufferSet.getNewPositionForValue (b : BufferSet) (v : Int) : Int × BufferSet :=
  ((b.entries.length : Int), ⟨b.entries ++ [(v, (b.entries.length : Int))]⟩)

/-- Index-distance of a value outside the closed window `[low, high]`
(0 for values inside the window). -/
def outsideDist (low high x : Int) : Int :=
  if x < low then low - x else if high < x then x - high else 0

/-- Modelled from the spec: find the tracked (value, position) entry whose
value lies furthest outside the closed window `[low, high]`; `none` when
every tracked value lies inside the window. -/
def furthestCandidate : List (Int × Int) → Int → Int → Option (Int × Int)
  | [], _, _ => none
  | e :: rest, low, high =>
    if e.1 < low ∨ high < e.1 then
      match furthestCandidate rest low high with
      | none => some e
      | some c => if outsideDist low high c.1 < outsideDist low high e.1 then some e else some c
    else furthestCandidate rest low high

/-- Replace the value key `old` of an association list by `new`, keeping the
position component. -/
def replaceValue (l : List (Int × Int)) (old new : Int) : List (Int × Int) :=
  l.map (fun e => if e.1 = old then (new, e.2) else e)

/-- Modelled from the spec: `replaceFurthestValuePosition(low, high, value)`
evicts the tracked value furthest outside the closed window `[low, high]` and
hands its slot to `value`; `absent` when no tracked value lies outside. -/
def BufferSet.replaceFurthestValuePosition (b : BufferSet) (low high v : Int) :
    Option (Int × BufferSet) :=
  match furthestCandidate b.entries low high with
  | none => none
  | some c => some (c.2, ⟨replaceValue b.entries c.1 v⟩)

/-- The layout state mutated by the reducer.  `scrollableColumns`,
`availableScrollWidth` and `maxScrollX` stand for the Width Oracle;
`scrollableColumns` doubles as the Offset Store. -/
structure ColState where
  scrollX : Int
  scrolling : Bool
  firstColumnIndex : Int
  endColumnIndex : Int
  firstColumnOffset : Int
  columnOffsets : List (Int × Int)
  columnsToRender : List (Int × Int)
  columnBufferSet : BufferSet
  scrollableColumns : List Nat
  availableScrollWidth : Nat
  maxScrollX : Nat
  deriving DecidableEq, Repr

/-- The computed buffer/viewport column range (end bounds exclusive). -/
structure ColumnRange where
  endBufferCol : Int
  endViewportCol : Int
  firstBufferCol : Int
  firstViewportCol : Int
  deriving DecidableEq, Repr

/-- Width of column `i` as measured by the Width Oracle / stored in the
Offset Store (source: `updateColumnWidth(state, columnIdx)` and
`columnOffsetIntervalTree.get(columnIdx)`). -/
def colWidth (w : List Nat) (i : Int) : Int :=
  ((w.getD i.toNat 0 : Nat) : Int)

/-- Prefix sum of stored widths strictly below index `i`
(source: `columnOffsetIntervalTree.sumUntil(i)`). -/
def sumUntil (w : List Nat) (i : Int) : Int :=
  (((w.take i.toNat).sum : Nat) : Int)

/-- Lodash `clamp(x, lower, upper)`: first clamp at the upper bound, then at
the lower bound. -/
def clamp (x lower upper : Int) : Int :=
  max (min x upper) lower

/-- Source line 65: `const bufferColumnCount = 0;` (a stated TODO). -/
def bufferColumnCount : Int := 0

/-- One disjunct of the anchor bounds check `index >= columnCount`
(an absent index compares as false, as in JavaScript). -/
def anchorIndexTooLarge : Option Int → Int → Bool
  | some i, columnCount => decide (columnCount ≤ i)
  | none, _ => false

/-- Source lines 84-86 condition:
`firstIndex >= columnCount || lastIndex >= columnCount`. -/
def anchorOutOfRange (a : ColumnAnchor) (columnCount : Int) : Bool :=
  anchorIndexTooLarge a.firstIndex columnCount || anchorIndexTooLarge a.lastIndex columnCount

/-- The last-index actually driving the walk: source lines 83-86 force
`lastIndex = columnCount - 1` whenever either anchor index is out of range. -/
def effectiveLastIndex (a : ColumnAnchor) (columnCount : Int) : Option Int :=
  if anchorOutOfRange a columnCount then some (columnCount - 1) else a.lastIndex

/-- Source lines 100-107: the viewport walk.  Starting at `idx` with
accumulated width `total`, repeatedly measure the current column and advance
by `step` while the index stays inside `[0, columnCount)` and the
accumulated width stays below `avail`; `endIdy` tracks the last column
touched.  `fuel` bounds the iteration count; the caller passes `w.length`,
which is always sufficient because the walk visits each index at most once. -/
def walkLoop (w : List Nat) (avail step : Int) :
    Nat → Int → Int → Int → Int × Int
  | 0, _idx, total, endIdy => (total, endIdy)
  | fuel + 1, idx, total, endIdy =>
    if idx < (w.length : Int) ∧ 0 ≤ idx ∧ total < avail then
      walkLoop w avail step fuel (idx + step) (total + colWidth w idx) idx
    else (total, endIdy)

/-- Source lines 110-138 epilogue shared by both walk directions: derive the
viewport span from the walk endpoints, pad it by `bufferColumnCount` into the
buffer span, and record the span and first offset on the state. -/
def rangeFromWalk (state : ColState) (startIdy endIdy firstOffset : Int) :
    ColState × ColumnRange :=
  let columnCount : Int := (state.scrollableColumns.length : Int)
  let firstViewportCol := min startIdy endIdy
  let firstBufferCol := max (firstViewportCol - bufferColumnCount) 0
  let endViewportCol := max startIdy endIdy + 1
  let endBufferCol := min (endViewportCol + bufferColumnCount) columnCount
  ({ state with
      firstColumnIndex := firstViewportCol,
      endColumnIndex := endViewportCol,
      firstColumnOffset := firstOffset },
   { endBufferCol := endBufferCol,
     endViewportCol := endViewportCol,
     firstBufferCol := firstBufferCol,
     firstViewportCol := firstViewportCol })

/-- Source lines 83-138, non-degenerate branch of the range calculation.
If `lastIndex` is defined (after the bounds clamp) walk backward from it with
accumulated width 0 and afterwards recompute
`firstOffset = min(availableScrollWidth - totalWidth, 0)` (source lines
125-127); otherwise walk forward from `firstIndex` seeded with `firstOffset`
and leave `firstOffset` unchanged. -/
def calcRangeCore (state : ColState) (columnAnchor : ColumnAnchor) : ColState × ColumnRange :=
  match effectiveLastIndex columnAnchor (state.scrollableColumns.length : Int) with
  | some lastIdx =>
    let wr := walkLoop state.scrollableColumns (state.availableScrollWidth : Int) (-1)
        state.scrollableColumns.length lastIdx 0 lastIdx
    rangeFromWalk state lastIdx wr.2 (min ((state.availableScrollWidth : Int) - wr.1) 0)
  | none =>
    let startIdy := columnAnchor.firstIndex.getD 0
    let wr := walkLoop state.scrollableColumns (state.availableScrollWidth : Int) 1
        state.scrollableColumns.length startIdy columnAnchor.firstOffset startIdy
    rangeFromWalk state startIdy wr.2 columnAnchor.firstOffset

/-- Source lines 64-139: `calculateRenderedColumnRange`.  Returns the updated
state (the source mutates it in place) together with the ColumnRange. -/
def calculateRenderedColumnRange (state : ColState) (columnAnchor : ColumnAnchor) :
    ColState × ColumnRange :=
  if state.availableScrollWidth = 0 ∨ state.scrollableColumns.length = 0 then
    ({ state with firstColumnIndex := 0, endColumnIndex := 0, firstColumnOffset := 0 },
     { endBufferCol := 0, endViewportCol := 0, firstBufferCol := 0, firstViewportCol := 0 })
  else
    calcRangeCore state columnAnchor

/-- Source lines 214-232: `addColumnToBuffer`.  Reuse the column's existing
slot when present; otherwise, at capacity, try to evict the tracked column
furthest outside the closed window `[startRange, endRange - 1]`; otherwise
allocate a fresh slot.  Returns the slot and the updated allocator. -/
def addColumnToBuffer (columnIdx : Int) (columnBufferSet : BufferSet)
    (startRange endRange maxBufferSize : Int) : Int × BufferSet :=
  match columnBufferSet.getValuePosition columnIdx with
  | some pos => (pos, columnBufferSet)
  | none =>
    if maxBufferSize ≤ columnBufferSet.getSize then
      match columnBufferSet.replaceFurthestValuePosition startRange (endRange - 1) columnIdx with
      | some pr => pr
      | none => columnBufferSet.getNewPositionForValue columnIdx
    else
      columnBufferSet.getNewPositionForValue columnIdx

/-- Start of the iteration window (source line 174). -/
def windowStart (r : ColumnRange) (viewportOnly : Bool) : Int :=
  if viewportOnly then r.firstViewportCol else r.firstBufferCol

/-- End of the iteration window (source line 175). -/
def windowEnd (r : ColumnRange) (viewportOnly : Bool) : Int :=
  if viewportOnly then r.endViewportCol else r.endBufferCol

/-- Result accumulator of the offsets loop: the rebuilt `columnsToRender`,
the rebuilt `columnOffsets` and the updated allocator. -/
structure OffsetsOut where
  columns : List (Int × Int)
  columnOffsets : List (Int × Int)
  bufferSet : BufferSet
  deriving DecidableEq, Repr

/-- Source lines 185-194: the per-column loop of
`computeRenderedColumnOffsets`.  For each index in the window record the
running offset, advance it by the column's stored width, obtain a slot via
`addColumnToBuffer` and write the column into that slot.  `fuel` is the
number of remaining iterations `(endRange - idx).toNat`. -/
def offsetsLoop (w : List Nat) (startRange endRange maxBufferSize : Int) :
    Nat → Int → Int → BufferSet → List (Int × Int) → List (Int × Int) → OffsetsOut
  | 0, _idx, _run, bset, offsets, cols =>
    { columns := cols, columnOffsets := offsets, bufferSet := bset }
  | fuel + 1, idx, run, bset, offsets, cols =>
    let offsets2 := offsets ++ [(idx, run)]
    let run2 := run + colWidth w idx
    let pr := addColumnToBuffer idx bset startRange endRange maxBufferSize
    offsetsLoop w startRange endRange maxBufferSize fuel (idx + 1) run2 pr.2 offsets2
      (setSlot cols pr.1 idx)

/-- Source lines 174-198, non-empty branch of `computeRenderedColumnOffsets`:
choose the iteration window, seed the running offset with the Offset Store's
prefix sum up to the window start, run the loop, and store the outputs. -/
def offsetsCore (state : ColState) (r : ColumnRange) (viewportOnly : Bool) : ColState :=
  let startIdx := windowStart r viewportOnly
  let endIdx := windowEnd r viewportOnly
  let out := offsetsLoop state.scrollableColumns startIdx endIdx
      (r.endBufferCol - r.firstBufferCol) (endIdx - startIdx).toNat startIdx
      (sumUntil state.scrollableColumns startIdx) state.columnBufferSet [] []
  { state with
      columnsToRender := out.columns,
      columnOffsets := out.columnOffsets,
      columnBufferSet := out.bufferSet }

/-- Source lines 158-199: `computeRenderedColumnOffsets`.  With an empty
buffer span both outputs are cleared; otherwise run the window loop. -/
def computeRenderedColumnOffsets (state : ColState) (columnRange : ColumnRange)
    (viewportOnly : Bool) : ColState :=
  if columnRange.endBufferCol - columnRange.firstBufferCol = 0 then
    { state with columnOffsets := [], columnsToRender := [] }
  else
    offsetsCore state columnRange viewportOnly

/-- Source lines 19-38: `computeRenderedColumns` (the Layout Orchestrator).
Compute the range, recompute offsets and slots, then reconcile `scrollX`:
for a non-empty viewport span it becomes
`columnOffsets[firstViewportCol] - firstColumnOffset`, otherwise the input
value, and the result is clamped to `[0, maxScrollX]`. -/
def computeRenderedColumns (state : ColState) (columnAnchor : ColumnAnchor) : ColState :=
  let pr := calculateRenderedColumnRange state columnAnchor
  let newState := computeRenderedColumnOffsets pr.1 pr.2 pr.1.scrolling
  let scrollX :=
    if pr.2.firstViewportCol ≠ pr.2.endViewportCol then
      (assocGet newState.columnOffsets pr.2.firstViewportCol).getD 0 - newState.firstColumnOffset
    else
      state.scrollX
  { newState with scrollX := clamp scrollX 0 (state.maxScrollX : Int) }

/-- The accumulated width of the backward viewport walk anchored at `l`
(the `totalWidth` of source lines 100-107 when `lastIndex = l`). -/
def backwardTotalWidth (s : ColState) (l : Int) : Int :=
  (walkLoop s.scrollableColumns (s.availableScrollWidth : Int) (-1)
    s.scrollableColumns.length l 0 l).1

/-- Closed-form contents of `columnOffsets` produced by the offsets loop:
`fuel` consecutive keys starting at `idx`, whose values accumulate the
stored widths starting from `run`. -/
def offsetTable (w : List Nat) : Nat → Int → Int → List (Int × Int)
  | 0, _idx, _run => []
  | k + 1, idx, run => (idx, run) :: offsetTable w k (idx + 1) (run + colWidth w idx)

/-- Sum of `count` consecutive stored widths starting at column `lo`. -/
def blockSum (w : List Nat) : Nat → Int → Int
  | 0, _lo => 0
  | k + 1, lo => colWidth w lo + blockSum w k (lo + 1)

/-- Well-formedness of the Slot Allocator, maintained by its operations:
tracked values are pairwise distinct, slots are pairwise distinct, and every
slot lies below the tracked count. -/
def BufferSet.WF (b : BufferSet) : Prop :=
  (b.entries.map Prod.fst).Nodup ∧
  (b.entries.map Prod.snd).Nodup ∧
  ∀ e ∈ b.entries, 0 ≤ e.2 ∧ e.2 < (b.entries.length : Int)

/-- Demo column set of the spec scenarios: five 100px columns, viewport
width 250px (so `maxScrollX = 500 - 250 = 250`). -/
def demoState : ColState :=
  { scrollX := 0, scrolling := false, firstColumnIndex := 0, endColumnIndex := 0,
    firstColumnOffset := 0, columnOffsets := [], columnsToRender := [],
    columnBufferSet := ⟨[]⟩, scrollableColumns := [100, 100, 100, 100, 100],
    availableScrollWidth := 250, maxScrollX := 250 }

/-- Forward anchor of the spec scenario: `{firstIndex: 0, firstOffset: 0}`. -/
def demoAnchorF : ColumnAnchor :=
  { firstIndex := some 0, firstOffset := 0, lastIndex := none }

/-- Backward anchor of the spec scenario: `{lastIndex: 4}`. -/
def demoAnchorB : ColumnAnchor :=
  { lastIndex := some 4 }

/-- The buffer/viewport range of the forward demo scenario. -/
def demoRange : ColumnRange :=
  { endBufferCol := 3, endViewportCol := 3, firstBufferCol := 0, firstViewportCol := 0 }

/-- A state with no scrollable columns (degenerate case scenario). -/
def emptyColsState : ColState :=
  { scrollX := 7, scrolling := false, firstColumnIndex := 3, endColumnIndex := 4,
    firstColumnOffset := -2, columnOffsets := [(0, 0)], columnsToRender := [(0, 0)],
    columnBufferSet := ⟨[(0, 0)]⟩, scrollableColumns := [],
    availableScrollWidth := 250, maxScrollX := 3 }

/-- Three 100px columns with viewport width 250px, used to refute the
backward/forward round-trip claim. -/
def cexState : ColState :=
  { scrollX := 0, scrolling := false, firstColumnIndex := 0, endColumnIndex := 0,
    firstColumnOffset := 0, columnOffsets := [], columnsToRender := [],
    columnBufferSet := ⟨[]⟩, scrollableColumns := [100, 100, 100],
    availableScrollWidth := 250, maxScrollX := 50 }

/-- A 100px column followed by a 0px column with viewport width 50px, used to
refute the round-trip claim even when the backward walk fills the viewport. -/
def cexZeroState : ColState :=
  { scrollX := 0, scrolling := false, firstColumnIndex := 0, endColumnIndex := 0,
    firstColumnOffset := 0, columnOffsets := [], columnsToRender := [],
    columnBufferSet := ⟨[]⟩, scrollableColumns := [100, 0],
    availableScrollWidth := 50, maxScrollX := 50 }

/-! ### Basic lemmas about association lists -/

theorem assocGet_mem {l : List (Int × Int)} {k v : Int}
    (h : assocGet l k = some v) : (k, v) ∈ l := by
  induction l with
  | nil => simp [assocGet] at h
  | cons e rest ih =>
    by_cases he : e.1 = k
    · rw [assocGet, if_pos he] at h
      obtain ⟨e1, e2⟩ := e
      obtain rfl : e2 = v := by simpa using h
      simp_all
    · rw [assocGet, if_neg he] at h
      exact List.mem_cons_of_mem _ (ih h)

theorem assocGet_none_forall {l : List (Int × Int)} {k : Int}
    (h : assocGet l k = none) : ∀ e ∈ l, e.1 ≠ k := by
  induction l with
  | nil => simp
  | cons e rest ih =>
    by_cases he : e.1 = k
    · rw [assocGet, if_pos he] at h; simp at h
    · rw [assocGet, if_neg he] at h
      intro f hf
      rcases List.mem_cons.1 hf with rfl | hf2
      · exact he
      · exact ih h f hf2

theorem assocGet_append_left {l1 l2 : List (Int × Int)} {k v : Int}
    (h : assocGet l1 k = some v) : assocGet (l1 ++ l2) k = some v := by
  induction l1 with
  | nil => simp [assocGet] at h
  | cons e rest ih =>
    by_cases he : e.1 = k
    · rw [assocGet, if_pos he] at h
      rw [List.cons_append, assocGet, if_pos he]
      exact h
    · rw [assocGet, if_neg he] at h
      rw [List.cons_append, assocGet, if_neg he]
      exact ih h

theorem assocGet_append_right {l1 l2 : List (Int × Int)} {k : Int}
    (h : ∀ e ∈ l1, e.1 ≠ k) : assocGet (l1 ++ l2) k = assocGet l2 k := by
  induction l1 with
  | nil => simp
  | cons e rest ih =>
    rw [List.cons_append, assocGet, if_neg (h e (by simp))]
    exact ih (fun f hf => h f (List.mem_cons_of_mem _ hf))

theorem setSlot_get_self (cols : List (Int × Int)) (p v : Int) :
    assocGet (setSlot cols p v) p = some v := by
  induction cols with
  | nil => simp [setSlot, assocGet]
  | cons e rest ih =>
    by_cases he : e.1 = p
    · rw [setSlot, if_pos he, assocGet, if_pos rfl]
    · rw [setSlot, if_neg he, assocGet, if_neg he]
      exact ih

theorem setSlot_get_ne (cols : List (Int × Int)) (p v q : Int) (h : q ≠ p) :
    assocGet (setSlot cols p v) q = assocGet cols q := by
  induction cols with
  | nil =>
    simp only [setSlot, assocGet]
    rw [if_neg (show ¬p = q from fun hc => h hc.symm)]
  | cons e rest ih =>
    by_cases he : e.1 = p
    · rw [setSlot, if_pos he, assocGet, assocGet, if_neg (show ¬p = q from fun hc => h hc.symm),
        if_neg (by rw [he]; exact fun hc => h hc.symm)]
    · rw [setSlot, if_neg he, assocGet, assocGet]
      by_cases hq : e.1 = q
      · rw [if_pos hq, if_pos hq]
      · rw [if_neg hq, if_neg hq]
        exact ih

theorem setSlot_length_le (cols : List (Int × Int)) (p v : Int) :
    (setSlot cols p v).length ≤ cols.length + 1 := by
  induction cols with
  | nil => simp [setSlot]
  | cons e rest ih =>
    by_cases he : e.1 = p
    · rw [setSlot, if_pos he]; simp
    · rw [setSlot, if_neg he]
      simpa using Nat.succ_le_succ ih

/-! ### Lemmas about the viewport walk -/

theorem walkLoop_stop {w : List Nat} {avail step : Int} {fuel : Nat} {idx t e : Int}
    (h : ¬(idx < (w.length : Int) ∧ 0 ≤ idx ∧ t < avail)) :
    walkLoop w avail step fuel idx t e = (t, e) := by
  cases fuel <;> simp [walkLoop, h]

theorem walkLoop_endIdy_bounds (w : List Nat) (avail step : Int) :
    ∀ (fuel : Nat) (idx t e : Int), 0 ≤ e → e < (w.length : Int) →
      0 ≤ (walkLoop w avail step fuel idx t e).2 ∧
        (walkLoop w avail step fuel idx t e).2 < (w.length : Int) := by
  intro fuel
  induction fuel with
  | zero => intro idx t e h1 h2; exact ⟨h1, h2⟩
  | succ n ih =>
    intro idx t e h1 h2
    by_cases hg : idx < (w.length : Int) ∧ 0 ≤ idx ∧ t < avail
    · rw [walkLoop, if_pos hg]
      exact ih _ _ _ hg.2.1 hg.1
    · rw [walkLoop, if_neg hg]
      exact ⟨h1, h2⟩

theorem colWidth_nonneg (w : List Nat) (i : Int) : 0 ≤ colWidth w i :=
  Int.natCast_nonneg _

theorem blockSum_nonneg (w : List Nat) : ∀ (g : Nat) (lo : Int), 0 ≤ blockSum w g lo := by
  intro g
  induction g with
  | zero => intro lo; exact le_refl 0
  | succ n ih => intro lo; exact add_nonneg (colWidth_nonneg w lo) (ih (lo + 1))

theorem blockSum_last (w : List Nat) : ∀ (g : Nat) (lo : Int),
    blockSum w (g + 1) lo = blockSum w g lo + colWidth w (lo + (g : Int)) := by
  intro g
  induction g with
  | zero => intro lo; simp [blockSum]
  | succ n ih =>
    intro lo
    have hc : lo + 1 + (n : Int) = lo + ((n + 1 : Nat) : Int) := by push_cast; ring
    calc blockSum w (n + 1 + 1) lo
        = colWidth w lo + blockSum w (n + 1) (lo + 1) := rfl
      _ = colWidth w lo + (blockSum w n (lo + 1) + colWidth w (lo + 1 + (n : Int))) := by
          rw [ih (lo + 1)]
      _ = (colWidth w lo + blockSum w n (lo + 1)) + colWidth w (lo + ((n + 1 : Nat) : Int)) := by
          rw [hc]; ring
      _ = blockSum w (n + 1) lo + colWidth w (lo + ((n + 1 : Nat) : Int)) := rfl

theorem bwalk_spec (w : List Nat) (avail : Int) :
    ∀ (fuel : Nat) (idx t e : Int), 0 ≤ idx → idx < (w.length : Int) → t < avail →
      idx.toNat < fuel →
      ∃ (f : Int) (g : Nat), 0 ≤ f ∧ f ≤ idx ∧ f + (g : Int) = idx + 1 ∧
        walkLoop w avail (-1) fuel idx t e = (t + blockSum w g f, f) := by
  intro fuel
  induction fuel with
  | zero => intro idx t e h0 h1 h2 h3; omega
  | succ m ih =>
    intro idx t e h0 h1 h2 h3
    have hg : idx < (w.length : Int) ∧ 0 ≤ idx ∧ t < avail := ⟨h1, h0, h2⟩
    rw [walkLoop, if_pos hg]
    have hneg : idx + -1 = idx - 1 := by ring
    rw [hneg]
    by_cases hc : 1 ≤ idx ∧ t + colWidth w idx < avail
    · obtain ⟨f, g, hf0, hfi, hsum, heq⟩ :=
        ih (idx - 1) (t + colWidth w idx) idx (by omega) (by omega) hc.2 (by omega)
      refine ⟨f, g + 1, hf0, by omega, by push_cast; omega, ?_⟩
      rw [heq]
      have hfg : f + (g : Int) = idx := by omega
      rw [Prod.mk.injEq]
      refine ⟨?_, rfl⟩
      rw [blockSum_last, hfg]
      ring
    · have hstop : walkLoop w avail (-1) m (idx - 1) (t + colWidth w idx) idx
          = (t + colWidth w idx, idx) := by
        apply walkLoop_stop
        intro hcon
        exact hc ⟨by omega, hcon.2.2⟩
      rw [hstop]
      refine ⟨idx, 1, h0, le_refl _, by push_cast; ring, ?_⟩
      simp [blockSum]

theorem fwalk_exact (w : List Nat) (avail k : Int) (hk : k < (w.length : Int))
    (hwk : 0 < colWidth w k) :
    ∀ (fuel : Nat) (j t e : Int), 0 ≤ j → j ≤ k → (k - j).toNat < fuel →
      t = avail - blockSum w (k + 1 - j).toNat j →
      walkLoop w avail 1 fuel j t e = (avail, k) := by
  intro fuel
  induction fuel with
  | zero => intro j t e h0 h1 h2 h3; omega
  | succ m ih =>
    intro j t e h0 h1 h2 ht
    have hcount : (k + 1 - j).toNat = (k - j).toNat + 1 := by omega
    have hbpos : 0 < blockSum w (k + 1 - j).toNat j := by
      rw [hcount, blockSum_last]
      have hjg : j + (((k - j).toNat : Nat) : Int) = k := by omega
      rw [hjg]
      have := blockSum_nonneg w (k - j).toNat j
      omega
    have hguard : j < (w.length : Int) ∧ 0 ≤ j ∧ t < avail := ⟨by omega, h0, by omega⟩
    rw [walkLoop, if_pos hguard]
    by_cases hjk : j = k
    · subst hjk
      have ht2 : t + colWidth w j = avail := by
        have hone : (j + 1 - j).toNat = 1 := by omega
        rw [ht, hone]
        simp [blockSum]
      rw [ht2, walkLoop_stop (by intro hcon; exact absurd hcon.2.2 (lt_irrefl avail))]
    · have hstep : t + colWidth w j = avail - blockSum w (k + 1 - (j + 1)).toNat (j + 1) := by
        rw [ht, hcount]
        have hd : blockSum w ((k - j).toNat + 1) j
            = colWidth w j + blockSum w (k - j).toNat (j + 1) := rfl
        rw [hd]
        have he2 : (k + 1 - (j + 1)).toNat = (k - j).toNat := by omega
        rw [he2]
        ring
      exact ih (j + 1) (t + colWidth w j) j (by omega) (by omega) (by omega) hstep

/-! ### The columnOffsets table produced by the offsets loop -/

theorem offsetsLoop_columnOffsets (w : List Nat) (sR eR m : Int) :
    ∀ (fuel : Nat) (idx run : Int) (bset : BufferSet) (offsets cols : List (Int × Int)),
      (offsetsLoop w sR eR m fuel idx run bset offsets cols).columnOffsets
        = offsets ++ offsetTable w fuel idx run := by
  intro fuel
  induction fuel with
  | zero => intro idx run bset offsets cols; simp [offsetsLoop, offsetTable]
  | succ n ih =>
    intro idx run bset offsets cols
    rw [offsetsLoop, offsetTable]
    rw [ih]
    simp

theorem offsetTable_get_head (w : List Nat) (k : Nat) (idx run : Int) :
    assocGet (offsetTable w (k + 1) idx run) idx = some run := by
  rw [offsetTable, assocGet, if_pos rfl]

theorem offsetTable_get_consec (w : List Nat) :
    ∀ (fuel : Nat) (idx run i : Int), idx ≤ i → i + 1 < idx + (fuel : Int) →
      ∃ x, assocGet (offsetTable w fuel idx run) i = some x ∧
        assocGet (offsetTable w fuel idx run) (i + 1) = some (x + colWidth w i) := by
  intro fuel
  induction fuel with
  | zero => intro idx run i h1 h2; exfalso; push_cast at h2; omega
  | succ n ih =>
    intro idx run i h1 h2
    by_cases hii : i = idx
    · subst hii
      obtain ⟨n2, rfl⟩ : ∃ n2, n = n2 + 1 := ⟨n - 1, by push_cast at h2; omega⟩
      refine ⟨run, ?_, ?_⟩
      · exact offsetTable_get_head w (n2 + 1) i run
      · rw [offsetTable, assocGet, if_neg (by omega : ¬i = i + 1)]
        exact offsetTable_get_head w n2 (i + 1) (run + colWidth w i)
    · have h3 : idx + 1 ≤ i := by omega
      obtain ⟨x, hx1, hx2⟩ := ih (idx + 1) (run + colWidth w idx) i h3
        (by push_cast at h2 ⊢; omega)
      refine ⟨x, ?_, ?_⟩
      · rw [offsetTable, assocGet, if_neg (by omega : ¬idx = i)]
        exact hx1
      · rw [offsetTable, assocGet, if_neg (by omega : ¬idx = i + 1)]
        exact hx2

/-! ### Characterizations of the range calculator -/

theorem rangeFromWalk_state (s : ColState) (sI eI fo : Int) :
    (rangeFromWalk s sI eI fo).1 =
      { s with firstColumnIndex := min sI eI, endColumnIndex := max sI eI + 1,
               firstColumnOffset := fo } := rfl

theorem rangeFromWalk_range (s : ColState) (sI eI fo : Int) :
    (rangeFromWalk s sI eI fo).2 =
      { endBufferCol := min (max sI eI + 1 + bufferColumnCount) (s.scrollableColumns.length : Int),
        endViewportCol := max sI eI + 1,
        firstBufferCol := max (min sI eI - bufferColumnCount) 0,
        firstViewportCol := min sI eI } := rfl

theorem bufferColumnCount_eq_zero : bufferColumnCount = 0 := rfl

theorem rangeFromWalk_range_facts (s : ColState) (sI eI fo : Int)
    (h1 : 0 ≤ sI) (h2 : sI < (s.scrollableColumns.length : Int))
    (h3 : 0 ≤ eI) (h4 : eI < (s.scrollableColumns.length : Int)) :
    (rangeFromWalk s sI eI fo).2.firstViewportCol = min sI eI ∧
    (rangeFromWalk s sI eI fo).2.endViewportCol = max sI eI + 1 ∧
    (rangeFromWalk s sI eI fo).2.firstBufferCol = min sI eI ∧
    (rangeFromWalk s sI eI fo).2.endBufferCol = max sI eI + 1 := by
  rw [rangeFromWalk_range, bufferColumnCount_eq_zero]
  refine ⟨rfl, rfl, ?_, ?_⟩ <;> simp <;> omega

theorem calcRange_degenerate (s : ColState) (a : ColumnAnchor)
    (h : s.availableScrollWidth = 0 ∨ s.scrollableColumns.length = 0) :
    calculateRenderedColumnRange s a =
      ({ s with firstColumnIndex := 0, endColumnIndex := 0, firstColumnOffset := 0 },
       { endBufferCol := 0, endViewportCol := 0, firstBufferCol := 0, firstViewportCol := 0 }) := by
  rw [calculateRenderedColumnRange, if_pos h]

theorem calcRange_backward (s : ColState) (a : ColumnAnchor) (l : Int)
    (hnd : ¬(s.availableScrollWidth = 0 ∨ s.scrollableColumns.length = 0))
    (hel : effectiveLastIndex a (s.scrollableColumns.length : Int) = some l) :
    calculateRenderedColumnRange s a =
      rangeFromWalk s l
        (walkLoop s.scrollableColumns (s.availableScrollWidth : Int) (-1)
          s.scrollableColumns.length l 0 l).2
        (min ((s.availableScrollWidth : Int) - backwardTotalWidth s l) 0) := by
  rw [calculateRenderedColumnRange, if_neg hnd, calcRangeCore, hel, backwardTotalWidth]

theorem calcRange_forward (s : ColState) (a : ColumnAnchor)
    (hnd : ¬(s.availableScrollWidth = 0 ∨ s.scrollableColumns.length = 0))
    (hel : effectiveLastIndex a (s.scrollableColumns.length : Int) = none) :
    calculateRenderedColumnRange s a =
      rangeFromWalk s (a.firstIndex.getD 0)
        (walkLoop s.scrollableColumns (s.availableScrollWidth : Int) 1
          s.scrollableColumns.length (a.firstIndex.getD 0) a.firstOffset
          (a.firstIndex.getD 0)).2
        a.firstOffset := by
  rw [calculateRenderedColumnRange, if_neg hnd, calcRangeCore, hel]

theorem effectiveLastIndex_bounds (a : ColumnAnchor) (n l : Int)
    (hn : 1 ≤ n) (ha : ∀ l0, a.lastIndex = some l0 → 0 ≤ l0)
    (h : effectiveLastIndex a n = some l) : 0 ≤ l ∧ l < n := by
  unfold effectiveLastIndex at h
  by_cases hc : anchorOutOfRange a n = true
  · rw [if_pos hc] at h
    have : n - 1 = l := by simpa using h
    omega
  · rw [if_neg hc] at h
    have h0 := ha l h
    rw [anchorOutOfRange, h] at hc
    simp only [Bool.or_eq_true, not_or] at hc
    have h2 := hc.2
    rw [anchorIndexTooLarge] at h2
    simp only [decide_eq_true_eq] at h2
    omega

theorem effectiveLastIndex_none (a : ColumnAnchor) (n : Int)
    (h : effectiveLastIndex a n = none) :
    a.lastIndex = none ∧ anchorOutOfRange a n = false := by
  unfold effectiveLastIndex at h
  by_cases hc : anchorOutOfRange a n = true
  · rw [if_pos hc] at h
    exact absurd h (by simp)
  · rw [if_neg hc] at h
    exact ⟨h, by simpa using hc⟩

theorem forward_start_bounds (a : ColumnAnchor) (n : Int) (hn : 1 ≤ n)
    (hor : anchorOutOfRange a n = false)
    (h0 : 0 ≤ a.firstIndex.getD 0) :
    0 ≤ a.firstIndex.getD 0 ∧ a.firstIndex.getD 0 < n := by
  refine ⟨h0, ?_⟩
  cases hf : a.firstIndex with
  | none => simp [hf]; omega
  | some f =>
    rw [anchorOutOfRange, hf] at hor
    simp only [Bool.or_eq_false_iff] at hor
    have h1 := hor.1
    rw [anchorIndexTooLarge] at h1
    simp only [decide_eq_false_iff_not] at h1
    simp [hf]
    omega

/-! ### Field preservation and clamp bounds -/

theorem offsets_preserve (s : ColState) (r : ColumnRange) (vo : Bool) :
    (computeRenderedColumnOffsets s r vo).scrollX = s.scrollX ∧
    (computeRenderedColumnOffsets s r vo).firstColumnOffset = s.firstColumnOffset ∧
    (computeRenderedColumnOffsets s r vo).scrollableColumns = s.scrollableColumns ∧
    (computeRenderedColumnOffsets s r vo).maxScrollX = s.maxScrollX ∧
    (computeRenderedColumnOffsets s r vo).firstColumnIndex = s.firstColumnIndex ∧
    (computeRenderedColumnOffsets s r vo).endColumnIndex = s.endColumnIndex ∧
    (computeRenderedColumnOffsets s r vo).availableScrollWidth = s.availableScrollWidth ∧
    (computeRenderedColumnOffsets s r vo).scrolling = s.scrolling := by
  unfold computeRenderedColumnOffsets offsetsCore
  by_cases h : r.endBufferCol - r.firstBufferCol = 0 <;> simp [h]

theorem offsets_columnOffsets_eq (s : ColState) (r : ColumnRange) (vo : Bool)
    (h : ¬r.endBufferCol - r.firstBufferCol = 0) :
    (computeRenderedColumnOffsets s r vo).columnOffsets =
      offsetTable s.scrollableColumns (windowEnd r vo - windowStart r vo).toNat
        (windowStart r vo) (sumUntil s.scrollableColumns (windowStart r vo)) := by
  unfold computeRenderedColumnOffsets offsetsCore
  rw [if_neg h]
  simp [offsetsLoop_columnOffsets]

theorem clamp_bounds (x M : Int) (hM : 0 ≤ M) : 0 ≤ clamp x 0 M ∧ clamp x 0 M ≤ M :=
  ⟨le_max_right _ _, max_le (min_le_right _ _) hM⟩

/-! ### The orchestrator in closed form -/

theorem computeRenderedColumns_eq (s : ColState) (a : ColumnAnchor) :
    computeRenderedColumns s a =
      { computeRenderedColumnOffsets (calculateRenderedColumnRange s a).1
          (calculateRenderedColumnRange s a).2 (calculateRenderedColumnRange s a).1.scrolling with
        scrollX := clamp
          (if (calculateRenderedColumnRange s a).2.firstViewportCol
              ≠ (calculateRenderedColumnRange s a).2.endViewportCol
           then (assocGet (computeRenderedColumnOffsets (calculateRenderedColumnRange s a).1
                   (calculateRenderedColumnRange s a).2
                   (calculateRenderedColumnRange s a).1.scrolling).columnOffsets
                   (calculateRenderedColumnRange s a).2.firstViewportCol).getD 0
                - (computeRenderedColumnOffsets (calculateRenderedColumnRange s a).1
                   (calculateRenderedColumnRange s a).2
                   (calculateRenderedColumnRange s a).1.scrolling).firstColumnOffset
           else s.scrollX) 0 (s.maxScrollX : Int) } := rfl

theorem calcRange_range_facts (s : ColState) (a : ColumnAnchor)
    (ha1 : ∀ l, a.lastIndex = some l → 0 ≤ l)
    (ha2 : a.lastIndex = none → 0 ≤ a.firstIndex.getD 0) :
    0 ≤ (calculateRenderedColumnRange s a).2.firstViewportCol ∧
    (calculateRenderedColumnRange s a).2.firstBufferCol
      = (calculateRenderedColumnRange s a).2.firstViewportCol ∧
    (calculateRenderedColumnRange s a).2.firstViewportCol
      ≤ (calculateRenderedColumnRange s a).2.endViewportCol ∧
    (calculateRenderedColumnRange s a).2.endBufferCol
      = (calculateRenderedColumnRange s a).2.endViewportCol ∧
    (calculateRenderedColumnRange s a).2.endBufferCol ≤ (s.scrollableColumns.length : Int) := by
  by_cases hd : s.availableScrollWidth = 0 ∨ s.scrollableColumns.length = 0
  · rw [calcRange_degenerate s a hd]
    refine ⟨le_refl 0, rfl, le_refl 0, rfl, ?_⟩
    exact Int.natCast_nonneg _
  · have hn : 1 ≤ (s.scrollableColumns.length : Int) := by
      rcases Nat.eq_zero_or_pos s.scrollableColumns.length with h | h
      · exact absurd (Or.inr h) hd
      · omega
    cases hel : effectiveLastIndex a (s.scrollableColumns.length : Int) with
    | some l =>
      obtain ⟨hl0, hln⟩ := effectiveLastIndex_bounds a _ l hn ha1 hel
      rw [calcRange_backward s a l hd hel]
      obtain ⟨he0, hen⟩ := walkLoop_endIdy_bounds s.scrollableColumns
        (s.availableScrollWidth : Int) (-1) s.scrollableColumns.length l 0 l hl0 hln
      obtain ⟨f1, f2, f3, f4⟩ := rangeFromWalk_range_facts s l _ _ hl0 hln he0 hen
      rw [f1, f2, f3, f4]
      refine ⟨by omega, by omega, by omega, by omega, by omega⟩
    | none =>
      obtain ⟨hlnone, hor⟩ := effectiveLastIndex_none a _ hel
      obtain ⟨h0, h1⟩ := forward_start_bounds a _ hn hor (ha2 hlnone)
      rw [calcRange_forward s a hd hel]
      obtain ⟨he0, hen⟩ := walkLoop_endIdy_bounds s.scrollableColumns
        (s.availableScrollWidth : Int) 1 s.scrollableColumns.length
        (a.firstIndex.getD 0) a.firstOffset (a.firstIndex.getD 0) h0 h1
      obtain ⟨f1, f2, f3, f4⟩ := rangeFromWalk_range_facts s _ _ _ h0 h1 he0 hen
      rw [f1, f2, f3, f4]
      refine ⟨by omega, by omega, by omega, by omega, by omega⟩

/-- C1: for every non-empty computed window, the offsets assignor seeds the
running offset with the Offset Store's prefix sum up to the window start: the
first recorded offset equals `sumUntil(windowStart)`, and consecutive
recorded offsets inside the window differ exactly by the stored column width.
In the five-100px-column scenario with viewport width 250 and forward anchor
`{firstIndex: 0, firstOffset: 0}`, the viewport span is `[0, 3)` and
`columnOffsets = {0: 0, 1: 100, 2: 200}`. -/
theorem claim_C1 :
    (∀ (s : ColState) (r : ColumnRange) (vo : Bool),
       r.endBufferCol - r.firstBufferCol ≠ 0 →
       windowStart r vo < windowEnd r vo →
       assocGet (computeRenderedColumnOffsets s r vo).columnOffsets (windowStart r vo)
         = some (sumUntil s.scrollableColumns (windowStart r vo)) ∧
       ∀ i : Int, windowStart r vo ≤ i → i + 1 < windowEnd r vo →
         ∃ x y, assocGet (computeRenderedColumnOffsets s r vo).columnOffsets i = some x ∧
           assocGet (computeRenderedColumnOffsets s r vo).columnOffsets (i + 1) = some y ∧
           y - x = colWidth s.scrollableColumns i) ∧
    (calculateRenderedColumnRange demoState demoAnchorF).2.firstViewportCol = 0 ∧
    (calculateRenderedColumnRange demoState demoAnchorF).2.endViewportCol = 3 ∧
    (computeRenderedColumns demoState demoAnchorF).columnOffsets
      = [(0, 0), (1, 100), (2, 200)] ∧
    (calculateRenderedColumnRange demoState demoAnchorF).1.firstColumnOffset = 0 := by
  refine ⟨?_, by decide, by decide, by decide, by decide⟩
  intro s r vo h0 hlt
  rw [offsets_columnOffsets_eq s r vo h0]
  constructor
  · obtain ⟨n2, hn2⟩ : ∃ n2, (windowEnd r vo - windowStart r vo).toNat = n2 + 1 :=
      ⟨(windowEnd r vo - windowStart r vo).toNat - 1, by omega⟩
    rw [hn2]
    exact offsetTable_get_head _ _ _ _
  · intro i h1 h2
    obtain ⟨x, hx1, hx2⟩ := offsetTable_get_consec s.scrollableColumns
      (windowEnd r vo - windowStart r vo).toNat (windowStart r vo)
      (sumUntil s.scrollableColumns (windowStart r vo)) i h1 (by omega)
    exact ⟨x, x + colWidth s.scrollableColumns i, hx1, hx2, by ring⟩

/-- C1 witness: the general part of C1 applied to the forward demo scenario
window `[0, 3)` yields the prefix-sum seed 0 at the window start. -/
theorem claim_C1_witness :
    assocGet (computeRenderedColumnOffsets demoState demoRange false).columnOffsets 0
      = some 0 :=
  (claim_C1.1 demoState demoRange false (by decide) (by decide)).1

/-- C2: the orchestrator recomputes `scrollX` as
`columnOffsets[firstViewportCol] - firstColumnOffset` when the computed
viewport span is non-empty and keeps the input `scrollX` otherwise, in both
cases clamping the result into `[0, maxScrollX]`. -/
theorem claim_C2 (s : ColState) (a : ColumnAnchor) :
    ((calculateRenderedColumnRange s a).2.firstViewportCol
        ≠ (calculateRenderedColumnRange s a).2.endViewportCol →
      (computeRenderedColumns s a).scrollX =
        clamp ((assocGet (computeRenderedColumnOffsets (calculateRenderedColumnRange s a).1
              (calculateRenderedColumnRange s a).2
              (calculateRenderedColumnRange s a).1.scrolling).columnOffsets
              (calculateRenderedColumnRange s a).2.firstViewportCol).getD 0
            - (computeRenderedColumnOffsets (calculateRenderedColumnRange s a).1
              (calculateRenderedColumnRange s a).2
              (calculateRenderedColumnRange s a).1.scrolling).firstColumnOffset)
          0 (s.maxScrollX : Int)) ∧
    ((calculateRenderedColumnRange s a).2.firstViewportCol
        = (calculateRenderedColumnRange s a).2.endViewportCol →
      (computeRenderedColumns s a).scrollX = clamp s.scrollX 0 (s.maxScrollX : Int)) ∧
    0 ≤ (computeRenderedColumns s a).scrollX ∧
    (computeRenderedColumns s a).scrollX ≤ (s.maxScrollX : Int) := by
  refine ⟨?_, ?_, ?_, ?_⟩
  · intro hne
    rw [computeRenderedColumns_eq]
    dsimp only
    rw [if_pos hne]
  · intro heq
    rw [computeRenderedColumns_eq]
    dsimp only
    rw [if_neg (fun hc => hc heq)]
  · rw [computeRenderedColumns_eq]
    dsimp only
    exact (clamp_bounds _ _ (Int.natCast_nonneg _)).1
  · rw [computeRenderedColumns_eq]
    dsimp only
    exact (clamp_bounds _ _ (Int.natCast_nonneg _)).2

/-- C2 witness: in the forward demo scenario the viewport span is non-empty
and the reconciled `scrollX` equals the clamped first-viewport offset. -/
theorem claim_C2_witness :
    (computeRenderedColumns demoState demoAnchorF).scrollX =
      clamp ((assocGet (computeRenderedColumnOffsets
            (calculateRenderedColumnRange demoState demoAnchorF).1
            (calculateRenderedColumnRange demoState demoAnchorF).2
            (calculateRenderedColumnRange demoState demoAnchorF).1.scrolling).columnOffsets
            (calculateRenderedColumnRange demoState demoAnchorF).2.firstViewportCol).getD 0
          - (computeRenderedColumnOffsets
            (calculateRenderedColumnRange demoState demoAnchorF).1
            (calculateRenderedColumnRange demoState demoAnchorF).2
            (calculateRenderedColumnRange demoState demoAnchorF).1.scrolling).firstColumnOffset)
        0 (demoState.maxScrollX : Int) :=
  (claim_C2 demoState demoAnchorF).1 (by decide)

/-- C3: a backward-anchored range calculation stores
`firstColumnOffset = min(availableScrollWidth - accumulatedWidth, 0)`, while
a forward-anchored one leaves it at the anchor's `firstOffset`.  In the
five-100px-column scenario with backward anchor `{lastIndex: 4}` the result
is `endViewportCol = 5`, `firstViewportCol = 2`,
`firstColumnOffset = min(250 - 300, 0) = -50`. -/
theorem claim_C3 :
    (∀ (s : ColState) (a : ColumnAnchor) (l : Int),
       ¬(s.availableScrollWidth = 0 ∨ s.scrollableColumns.length = 0) →
       effectiveLastIndex a (s.scrollableColumns.length : Int) = some l →
       (calculateRenderedColumnRange s a).1.firstColumnOffset
         = min ((s.availableScrollWidth : Int) - backwardTotalWidth s l) 0) ∧
    (∀ (s : ColState) (a : ColumnAnchor),
       ¬(s.availableScrollWidth = 0 ∨ s.scrollableColumns.length = 0) →
       effectiveLastIndex a (s.scrollableColumns.length : Int) = none →
       (calculateRenderedColumnRange s a).1.firstColumnOffset = a.firstOffset) ∧
    (calculateRenderedColumnRange demoState demoAnchorB).2.endViewportCol = 5 ∧
    (calculateRenderedColumnRange demoState demoAnchorB).2.firstViewportCol = 2 ∧
    (calculateRenderedColumnRange demoState demoAnchorB).1.firstColumnOffset = -50 := by
  refine ⟨?_, ?_, by decide, by decide, by decide⟩
  · intro s a l hnd hel
    rw [calcRange_backward s a l hnd hel, rangeFromWalk_state]
  · intro s a hnd hel
    rw [calcRange_forward s a hnd hel, rangeFromWalk_state]

/-- C3 witness: the backward branch of C3 applied to the demo scenario with
effective last index 4. -/
theorem claim_C3_witness :
    (calculateRenderedColumnRange demoState demoAnchorB).1.firstColumnOffset
      = min ((demoState.availableScrollWidth : Int) - backwardTotalWidth demoState 4) 0 :=
  claim_C3.1 demoState demoAnchorB 4 (by decide) (by decide)

/-- C4: for every state and every anchor with non-negative indices, the
computed column range satisfies
`firstBufferCol ≤ firstViewportCol ≤ endViewportCol ≤ endBufferCol` and all
four bounds lie within `[0, columnCount]`. -/
theorem claim_C4 (s : ColState) (a : ColumnAnchor)
    (ha1 : ∀ l, a.lastIndex = some l → 0 ≤ l)
    (ha2 : a.lastIndex = none → 0 ≤ a.firstIndex.getD 0) :
    0 ≤ (calculateRenderedColumnRange s a).2.firstBufferCol ∧
    (calculateRenderedColumnRange s a).2.firstBufferCol
      ≤ (calculateRenderedColumnRange s a).2.firstViewportCol ∧
    (calculateRenderedColumnRange s a).2.firstViewportCol
      ≤ (calculateRenderedColumnRange s a).2.endViewportCol ∧
    (calculateRenderedColumnRange s a).2.endViewportCol
      ≤ (calculateRenderedColumnRange s a).2.endBufferCol ∧
    (calculateRenderedColumnRange s a).2.endBufferCol
      ≤ (s.scrollableColumns.length : Int) := by
  obtain ⟨h1, h2, h3, h4, h5⟩ := calcRange_range_facts s a ha1 ha2
  omega

/-- C4 witness: the invariant chain at the forward demo scenario. -/
theorem claim_C4_witness :
    0 ≤ (calculateRenderedColumnRange demoState demoAnchorF).2.firstBufferCol ∧
    (calculateRenderedColumnRange demoState demoAnchorF).2.firstBufferCol
      ≤ (calculateRenderedColumnRange demoState demoAnchorF).2.firstViewportCol ∧
    (calculateRenderedColumnRange demoState demoAnchorF).2.firstViewportCol
      ≤ (calculateRenderedColumnRange demoState demoAnchorF).2.endViewportCol ∧
    (calculateRenderedColumnRange demoState demoAnchorF).2.endViewportCol
      ≤ (calculateRenderedColumnRange demoState demoAnchorF).2.endBufferCol ∧
    (calculateRenderedColumnRange demoState demoAnchorF).2.endBufferCol
      ≤ (demoState.scrollableColumns.length : Int) :=
  claim_C4 demoState demoAnchorF (fun l hl => by simp [demoAnchorF] at hl) (fun _ => by decide)

/-- C9: with zero available scroll width or no scrollable columns the
computation is a defined degenerate case: the stored span and offset are
zeroed, the returned range has all four bounds 0, both outputs are cleared,
and the returned `scrollX` is the input `scrollX` clamped to
`[0, maxScrollX]`. -/
theorem claim_C9 (s : ColState) (a : ColumnAnchor)
    (h : s.availableScrollWidth = 0 ∨ s.scrollableColumns.length = 0) :
    (computeRenderedColumns s a).firstColumnIndex = 0 ∧
    (computeRenderedColumns s a).endColumnIndex = 0 ∧
    (computeRenderedColumns s a).firstColumnOffset = 0 ∧
    (calculateRenderedColumnRange s a).2 =
      { endBufferCol := 0, endViewportCol := 0, firstBufferCol := 0, firstViewportCol := 0 } ∧
    (computeRenderedColumns s a).columnOffsets = [] ∧
    (computeRenderedColumns s a).columnsToRender = [] ∧
    (computeRenderedColumns s a).scrollX = clamp s.scrollX 0 (s.maxScrollX : Int) := by
  have hd := calcRange_degenerate s a h
  rw [computeRenderedColumns_eq, hd]
  simp [computeRenderedColumnOffsets]

/-- C9 witness: the degenerate case at a state with zero scrollable columns,
where the input `scrollX = 7` is clamped to `maxScrollX = 3`. -/
theorem claim_C9_witness :
    (computeRenderedColumns emptyColsState demoAnchorF).firstColumnIndex = 0 ∧
    (computeRenderedColumns emptyColsState demoAnchorF).endColumnIndex = 0 ∧
    (computeRenderedColumns emptyColsState demoAnchorF).firstColumnOffset = 0 ∧
    (calculateRenderedColumnRange emptyColsState demoAnchorF).2 =
      { endBufferCol := 0, endViewportCol := 0, firstBufferCol := 0, firstViewportCol := 0 } ∧
    (computeRenderedColumns emptyColsState demoAnchorF).columnOffsets = [] ∧
    (computeRenderedColumns emptyColsState demoAnchorF).columnsToRender = [] ∧
    (computeRenderedColumns emptyColsState demoAnchorF).scrollX
      = clamp emptyColsState.scrollX 0 (emptyColsState.maxScrollX : Int) :=
  claim_C9 emptyColsState demoAnchorF (Or.inr rfl)

/-- C10: since `bufferColumnCount` is fixed at 0, every computed range has
coinciding buffer and viewport bounds, and the offsets assignor returns the
same result whether the viewport-only (fast scrolling) flag is set or not. -/
theorem claim_C10 (s : ColState) (a : ColumnAnchor) (s2 : ColState)
    (ha1 : ∀ l, a.lastIndex = some l → 0 ≤ l)
    (ha2 : a.lastIndex = none → 0 ≤ a.firstIndex.getD 0) :
    bufferColumnCount = 0 ∧
    (calculateRenderedColumnRange s a).2.firstBufferCol
      = (calculateRenderedColumnRange s a).2.firstViewportCol ∧
    (calculateRenderedColumnRange s a).2.endBufferCol
      = (calculateRenderedColumnRange s a).2.endViewportCol ∧
    (computeRenderedColumnOffsets s2 (calculateRenderedColumnRange s a).2 true).columnOffsets
      = (computeRenderedColumnOffsets s2 (calculateRenderedColumnRange s a).2 false).columnOffsets ∧
    (computeRenderedColumnOffsets s2 (calculateRenderedColumnRange s a).2 true).columnsToRender
      = (computeRenderedColumnOffsets s2 (calculateRenderedColumnRange s a).2 false).columnsToRender := by
  obtain ⟨h1, h2, h3, h4, h5⟩ := calcRange_range_facts s a ha1 ha2
  have hfull : computeRenderedColumnOffsets s2 (calculateRenderedColumnRange s a).2 true
      = computeRenderedColumnOffsets s2 (calculateRenderedColumnRange s a).2 false := by
    unfold computeRenderedColumnOffsets offsetsCore windowStart windowEnd
    rw [h2, h4]
    simp
  exact ⟨rfl, h2, h4, by rw [hfull], by rw [hfull]⟩

/-- C10 witness: at the forward demo scenario both iteration paths produce
the same `columnOffsets`. -/
theorem claim_C10_witness :
    (computeRenderedColumnOffsets demoState
        (calculateRenderedColumnRange demoState demoAnchorF).2 true).columnOffsets
      = (computeRenderedColumnOffsets demoState
        (calculateRenderedColumnRange demoState demoAnchorF).2 false).columnOffsets :=
  (claim_C10 demoState demoAnchorF demoState
    (fun l hl => by simp [demoAnchorF] at hl) (fun _ => by decide)).2.2.2.1


/-- C5 counterexample: the backward/forward round-trip does not reproduce the
viewport span in general.  With three 100px columns, viewport width 250 and
backward anchor `{lastIndex: 0}` the first computation yields the span
`[0, 1)` but re-anchoring forward from the stored `firstColumnIndex = 0`,
`firstColumnOffset = 0` yields `[0, 3)`; with columns `[100px, 0px]`,
viewport width 50 and backward anchor `{lastIndex: 1}` the first computation
yields `[0, 2)` but the forward re-anchoring yields `[0, 1)`. -/
theorem claim_C5_counterexample :
    ((calculateRenderedColumnRange
        (calculateRenderedColumnRange cexState { lastIndex := some 0 }).1
        { firstIndex := some (calculateRenderedColumnRange cexState
            { lastIndex := some 0 }).1.firstColumnIndex,
          firstOffset := (calculateRenderedColumnRange cexState
            { lastIndex := some 0 }).1.firstColumnOffset }).2.endViewportCol
      ≠ (calculateRenderedColumnRange cexState { lastIndex := some 0 }).2.endViewportCol) ∧
    ((calculateRenderedColumnRange
        (calculateRenderedColumnRange cexZeroState { lastIndex := some 1 }).1
        { firstIndex := some (calculateRenderedColumnRange cexZeroState
            { lastIndex := some 1 }).1.firstColumnIndex,
          firstOffset := (calculateRenderedColumnRange cexZeroState
            { lastIndex := some 1 }).1.firstColumnOffset }).2.endViewportCol
      ≠ (calculateRenderedColumnRange cexZeroState { lastIndex := some 1 }).2.endViewportCol) :=
  ⟨by decide, by decide⟩

/-- C5 (amended): the backward/forward round-trip law holds whenever the
backward walk fills the viewport (its accumulated width reaches the
available scroll width) and the anchor column has positive width: computing
a range with `lastIndex = k` and recomputing with the forward anchor built
from the stored `firstColumnIndex` and `firstColumnOffset` reproduces the
same viewport span. -/
theorem claim_C5_amended (s : ColState) (k : Int)
    (h0 : 0 ≤ k) (hk : k < (s.scrollableColumns.length : Int))
    (hw : 0 < colWidth s.scrollableColumns k)
    (hfill : (s.availableScrollWidth : Int) ≤ backwardTotalWidth s k) :
    (calculateRenderedColumnRange
        (calculateRenderedColumnRange s { lastIndex := some k }).1
        { firstIndex := some (calculateRenderedColumnRange s
            { lastIndex := some k }).1.firstColumnIndex,
          firstOffset := (calculateRenderedColumnRange s
            { lastIndex := some k }).1.firstColumnOffset }).2.firstViewportCol
      = (calculateRenderedColumnRange s { lastIndex := some k }).2.firstViewportCol ∧
    (calculateRenderedColumnRange
        (calculateRenderedColumnRange s { lastIndex := some k }).1
        { firstIndex := some (calculateRenderedColumnRange s
            { lastIndex := some k }).1.firstColumnIndex,
          firstOffset := (calculateRenderedColumnRange s
            { lastIndex := some k }).1.firstColumnOffset }).2.endViewportCol
      = (calculateRenderedColumnRange s { lastIndex := some k }).2.endViewportCol := by
  by_cases hA : s.availableScrollWidth = 0
  · have e1 : (calculateRenderedColumnRange s
        { firstIndex := none, firstOffset := 0, lastIndex := some k }).2 =
        { endBufferCol := 0, endViewportCol := 0, firstBufferCol := 0, firstViewportCol := 0 } := by
      rw [calcRange_degenerate _ _ (Or.inl hA)]
    have hA2 : (calculateRenderedColumnRange s
        { firstIndex := none, firstOffset := 0, lastIndex := some k }).1.availableScrollWidth
        = 0 := by
      rw [calcRange_degenerate _ _ (Or.inl hA)]
      exact hA
    have e2 : ∀ (a2 : ColumnAnchor), (calculateRenderedColumnRange
        (calculateRenderedColumnRange s
          { firstIndex := none, firstOffset := 0, lastIndex := some k }).1 a2).2 =
        { endBufferCol := 0, endViewportCol := 0, firstBufferCol := 0, firstViewportCol := 0 } := by
      intro a2
      rw [calcRange_degenerate _ _ (Or.inl hA2)]
    rw [e2, e1]
    exact ⟨rfl, rfl⟩
  · have hn1 : 1 ≤ (s.scrollableColumns.length : Int) := by omega
    have hnd : ¬(s.availableScrollWidth = 0 ∨ s.scrollableColumns.length = 0) := by
      push_neg
      exact ⟨hA, by omega⟩
    have hel1 : effectiveLastIndex { lastIndex := some k }
        (s.scrollableColumns.length : Int) = some k := by
      unfold effectiveLastIndex
      rw [if_neg]
      simp [anchorOutOfRange, anchorIndexTooLarge]
      omega
    obtain ⟨f, g, hf0, hfk, hsum, heqw⟩ := bwalk_spec s.scrollableColumns
      (s.availableScrollWidth : Int) s.scrollableColumns.length k 0 k h0 hk
      (by omega) (by omega)
    have hend : (walkLoop s.scrollableColumns (s.availableScrollWidth : Int) (-1)
        s.scrollableColumns.length k 0 k).2 = f := by rw [heqw]
    have hT : backwardTotalWidth s k = blockSum s.scrollableColumns g f := by
      unfold backwardTotalWidth
      rw [heqw]
      show 0 + blockSum s.scrollableColumns g f = blockSum s.scrollableColumns g f
      ring
    have hminkf : min k f = f := min_eq_right hfk
    have hmaxkf : max k f = k := max_eq_left hfk
    have hoff : min ((s.availableScrollWidth : Int) - backwardTotalWidth s k) 0
        = (s.availableScrollWidth : Int) - backwardTotalWidth s k :=
      min_eq_left (by omega)
    have h1st : calculateRenderedColumnRange s { lastIndex := some k }
        = rangeFromWalk s k f
            (min ((s.availableScrollWidth : Int) - backwardTotalWidth s k) 0) := by
      rw [calcRange_backward s { lastIndex := some k } k hnd hel1, hend]
    have hS1 : (calculateRenderedColumnRange s { lastIndex := some k }).1
        = { s with firstColumnIndex := f,
                   endColumnIndex := k + 1,
                   firstColumnOffset :=
                     (s.availableScrollWidth : Int) - backwardTotalWidth s k } := by
      rw [h1st, rangeFromWalk_state, hminkf, hmaxkf, hoff]
    have hR1fvc : (calculateRenderedColumnRange s
        { lastIndex := some k }).2.firstViewportCol = f := by
      rw [h1st, rangeFromWalk_range]
      exact hminkf
    have hR1evc : (calculateRenderedColumnRange s
        { lastIndex := some k }).2.endViewportCol = k + 1 := by
      rw [h1st, rangeFromWalk_range]
      show max k f + 1 = k + 1
      rw [hmaxkf]
    rw [hS1, hR1fvc, hR1evc]
    dsimp only
    have happ := calcRange_forward
      { s with firstColumnIndex := f,
               endColumnIndex := k + 1,
               firstColumnOffset := (s.availableScrollWidth : Int) - backwardTotalWidth s k }
      { firstIndex := some f,
        firstOffset := (s.availableScrollWidth : Int) - backwardTotalWidth s k,
        lastIndex := none }
      (by simpa using hnd)
      (by
        unfold effectiveLastIndex
        rw [if_neg]
        simp [anchorOutOfRange, anchorIndexTooLarge]
        omega)
    rw [happ]
    dsimp only
    simp only [Option.getD_some]
    have hgt : (k + 1 - f).toNat = g := by omega
    have hfw : walkLoop s.scrollableColumns (s.availableScrollWidth : Int) 1
        s.scrollableColumns.length f
        ((s.availableScrollWidth : Int) - backwardTotalWidth s k) f
        = ((s.availableScrollWidth : Int), k) := by
      apply fwalk_exact s.scrollableColumns (s.availableScrollWidth : Int) k hk hw
        s.scrollableColumns.length f _ f hf0 hfk (by omega)
      rw [hgt, hT]
    rw [hfw, rangeFromWalk_range]
    constructor
    · show min f k = f
      exact min_eq_left hfk
    · show max f k + 1 = k + 1
      rw [max_eq_right hfk]

/-- C5 witness: the amended round-trip law at the five-100px-column demo with
backward anchor `{lastIndex: 4}` (the walk accumulates 300 ≥ 250), which
reproduces the viewport span `[2, 5)`. -/
theorem claim_C5_witness :
    0 ≤ (4 : Int) ∧
    (4 : Int) < (demoState.scrollableColumns.length : Int) ∧
    0 < colWidth demoState.scrollableColumns 4 ∧
    (demoState.availableScrollWidth : Int) ≤ backwardTotalWidth demoState 4 ∧
    ((calculateRenderedColumnRange
        (calculateRenderedColumnRange demoState { lastIndex := some 4 }).1
        { firstIndex := some (calculateRenderedColumnRange demoState
            { lastIndex := some 4 }).1.firstColumnIndex,
          firstOffset := (calculateRenderedColumnRange demoState
            { lastIndex := some 4 }).1.firstColumnOffset }).2.firstViewportCol
      = (calculateRenderedColumnRange demoState { lastIndex := some 4 }).2.firstViewportCol ∧
    (calculateRenderedColumnRange
        (calculateRenderedColumnRange demoState { lastIndex := some 4 }).1
        { firstIndex := some (calculateRenderedColumnRange demoState
            { lastIndex := some 4 }).1.firstColumnIndex,
          firstOffset := (calculateRenderedColumnRange demoState
            { lastIndex := some 4 }).1.firstColumnOffset }).2.endViewportCol
      = (calculateRenderedColumnRange demoState { lastIndex := some 4 }).2.endViewportCol) :=
  ⟨by decide, by decide, by decide, by decide,
   claim_C5_amended demoState 4 (by decide) (by decide) (by decide) (by decide)⟩

/-! ### Lemmas about the Slot Allocator model -/

theorem furthestCandidate_spec :
    ∀ (l : List (Int × Int)) (low high : Int) (c : Int × Int),
      furthestCandidate l low high = some c → c ∈ l ∧ (c.1 < low ∨ high < c.1) := by
  intro l low high
  induction l with
  | nil => intro c h; simp [furthestCandidate] at h
  | cons e rest ih =>
    intro c h
    rw [furthestCandidate] at h
    by_cases he : e.1 < low ∨ high < e.1
    · rw [if_pos he] at h
      cases hr : furthestCandidate rest low high with
      | none =>
        rw [hr] at h
        obtain rfl : e = c := by simpa using h
        exact ⟨by simp, he⟩
      | some c2 =>
        rw [hr] at h
        have h2 : (if outsideDist low high c2.1 < outsideDist low high e.1
            then some e else some c2) = some c := h
        by_cases hd : outsideDist low high c2.1 < outsideDist low high e.1
        · rw [if_pos hd] at h2
          obtain rfl : e = c := by simpa using h2
          exact ⟨by simp, he⟩
        · rw [if_neg hd] at h2
          obtain rfl : c2 = c := by simpa using h2
          obtain ⟨hm, ho⟩ := ih c2 hr
          exact ⟨List.mem_cons_of_mem _ hm, ho⟩
    · rw [if_neg he] at h
      obtain ⟨hm, ho⟩ := ih c h
      exact ⟨List.mem_cons_of_mem _ hm, ho⟩

theorem furthestCandidate_none :
    ∀ (l : List (Int × Int)) (low high : Int),
      (∀ e ∈ l, low ≤ e.1 ∧ e.1 ≤ high) → furthestCandidate l low high = none := by
  intro l low high
  induction l with
  | nil => intro _; rfl
  | cons e rest ih =>
    intro h
    obtain ⟨h1, h2⟩ := h e (by simp)
    rw [furthestCandidate, if_neg (by omega)]
    exact ih (fun f hf => h f (List.mem_cons_of_mem _ hf))

theorem replaceValue_map_snd (l : List (Int × Int)) (old nv : Int) :
    (replaceValue l old nv).map Prod.snd = l.map Prod.snd := by
  induction l with
  | nil => rfl
  | cons e rest ih =>
    by_cases he : e.1 = old <;> simp [replaceValue, he] at ih ⊢ <;> exact ih

theorem replaceValue_length (l : List (Int × Int)) (old nv : Int) :
    (replaceValue l old nv).length = l.length := by
  simp [replaceValue]

theorem replaceValue_map_fst (l : List (Int × Int)) (old nv : Int) :
    (replaceValue l old nv).map Prod.fst
      = (l.map Prod.fst).map (fun x => if x = old then nv else x) := by
  induction l with
  | nil => rfl
  | cons e rest ih =>
    by_cases he : e.1 = old <;> simp [replaceValue, he] at ih ⊢ <;> exact ih

theorem nodup_map_replaceKey (old nv : Int) :
    ∀ (ks : List Int), nv ∉ ks → ks.Nodup →
      (ks.map (fun x => if x = old then nv else x)).Nodup := by
  intro ks
  induction ks with
  | nil => intro _ _; simp
  | cons a ks ih =>
    intro hnv hnd
    rw [List.map_cons, List.nodup_cons]
    rw [List.nodup_cons] at hnd
    rw [List.mem_cons, not_or] at hnv
    refine ⟨?_, ih hnv.2 hnd.2⟩
    intro hmem
    obtain ⟨b, hb, hgb⟩ := List.mem_map.1 hmem
    by_cases ha : a = old
    · rw [if_pos ha] at hgb
      by_cases hbo : b = old
      · rw [if_pos hbo] at hgb
        exact hnd.1 (ha ▸ hbo ▸ hb)
      · rw [if_neg hbo] at hgb
        exact hnv.2 (hgb ▸ hb)
    · rw [if_neg ha] at hgb
      by_cases hbo : b = old
      · rw [if_pos hbo] at hgb
        exact hnv.1 hgb
      · rw [if_neg hbo] at hgb
        exact hnd.1 (hgb ▸ hb)

theorem assocGet_replaceValue_other (l : List (Int × Int)) (old nv k : Int)
    (hk1 : k ≠ old) (hk2 : k ≠ nv) :
    assocGet (replaceValue l old nv) k = assocGet l k := by
  induction l with
  | nil => rfl
  | cons e rest ih =>
    by_cases he : e.1 = old
    · show assocGet ((if e.1 = old then (nv, e.2) else e) :: replaceValue rest old nv) k
        = assocGet (e :: rest) k
      rw [if_pos he, assocGet, assocGet,
        if_neg (show ¬nv = k from fun h => hk2 h.symm),
        if_neg (show ¬e.1 = k from fun h => hk1 (h ▸ he ▸ rfl))]
      exact ih
    · show assocGet ((if e.1 = old then (nv, e.2) else e) :: replaceValue rest old nv) k
        = assocGet (e :: rest) k
      rw [if_neg he, assocGet, assocGet]
      by_cases hek : e.1 = k
      · rw [if_pos hek, if_pos hek]
      · rw [if_neg hek, if_neg hek]
        exact ih

theorem assocGet_replaceValue_self (old nv p : Int) :
    ∀ (l : List (Int × Int)), (l.map Prod.fst).Nodup → (old, p) ∈ l →
      (∀ e ∈ l, e.1 ≠ nv) →
      assocGet (replaceValue l old nv) nv = some p := by
  intro l
  induction l with
  | nil => intro _ h; simp at h
  | cons e rest ih =>
    intro hnd hmem hfresh
    rw [List.map_cons, List.nodup_cons] at hnd
    rcases List.mem_cons.1 hmem with heq | hmem2
    · have he : e.1 = old := by rw [← heq]
      have hp : e.2 = p := by rw [← heq]
      show assocGet ((if e.1 = old then (nv, e.2) else e) :: replaceValue rest old nv) nv
        = some p
      rw [if_pos he, assocGet, if_pos rfl, hp]
    · have he : e.1 ≠ old := by
        intro h
        exact hnd.1 (h ▸ List.mem_map.2 ⟨(old, p), hmem2, rfl⟩)
      show assocGet ((if e.1 = old then (nv, e.2) else e) :: replaceValue rest old nv) nv
        = some p
      rw [if_neg he, assocGet, if_neg (hfresh e (by simp))]
      exact ih hnd.2 hmem2 (fun f hf => hfresh f (List.mem_cons_of_mem _ hf))

theorem getValuePosition_none_forall (b : BufferSet) (v : Int)
    (h : b.getValuePosition v = none) : ∀ e ∈ b.entries, e.1 ≠ v :=
  assocGet_none_forall h

theorem fresh_maps (b : BufferSet) (c : Int) (h : b.getValuePosition c = none) :
    (b.getNewPositionForValue c).2.getValuePosition c
      = some (b.getNewPositionForValue c).1 := by
  show assocGet (b.entries ++ [(c, (b.entries.length : Int))]) c
    = some (b.entries.length : Int)
  rw [assocGet_append_right (assocGet_none_forall h), assocGet, if_pos rfl]

theorem fresh_preserve (b : BufferSet) (c v p : Int)
    (h : b.getValuePosition v = some p) :
    (b.getNewPositionForValue c).2.getValuePosition v = some p :=
  assocGet_append_left h

theorem nodup_concat_of : ∀ (ks : List Int) (x : Int), ks.Nodup → x ∉ ks →
    (ks ++ [x]).Nodup := by
  intro ks x
  induction ks with
  | nil => intro _ _; simp
  | cons a ks ih =>
    intro h1 h2
    rw [List.nodup_cons] at h1
    rw [List.mem_cons, not_or] at h2
    rw [List.cons_append, List.nodup_cons]
    constructor
    · intro hmem
      rcases List.mem_append.1 hmem with hm | hm
      · exact h1.1 hm
      · have ha : a = x := by simpa using hm
        exact h2.1 ha.symm
    · exact ih h1.2 h2.2

theorem fresh_WF (b : BufferSet) (c : Int) (hwf : b.WF)
    (h : b.getValuePosition c = none) : (b.getNewPositionForValue c).2.WF := by
  obtain ⟨wf1, wf2, wf3⟩ := hwf
  have hfresh := assocGet_none_forall h
  refine ⟨?_, ?_, ?_⟩
  · show ((b.entries ++ [(c, (b.entries.length : Int))]).map Prod.fst).Nodup
    rw [List.map_append]
    have hsing : List.map Prod.fst [(c, (b.entries.length : Int))] = [c] := rfl
    rw [hsing]
    apply nodup_concat_of _ _ wf1
    intro hc
    obtain ⟨e, he, hec⟩ := List.mem_map.1 hc
    exact hfresh e he hec
  · show ((b.entries ++ [(c, (b.entries.length : Int))]).map Prod.snd).Nodup
    rw [List.map_append]
    have hsing : List.map Prod.snd [(c, (b.entries.length : Int))]
        = [(b.entries.length : Int)] := rfl
    rw [hsing]
    apply nodup_concat_of _ _ wf2
    intro hc
    obtain ⟨e, he, hec⟩ := List.mem_map.1 hc
    have hb := (wf3 e he).2
    omega
  · intro e he
    show 0 ≤ e.2 ∧ e.2 < ((b.entries ++ [(c, (b.entries.length : Int))]).length : Int)
    rw [List.length_append]
    rcases List.mem_append.1 he with h1 | h1
    · have := wf3 e h1
      simp only [List.length_cons, List.length_nil]
      push_cast
      omega
    · have : e = (c, (b.entries.length : Int)) := by simpa using h1
      rw [this]
      simp only [List.length_cons, List.length_nil]
      push_cast
      omega

theorem evict_WF (b : BufferSet) (c : Int) (cand : Int × Int) (hwf : b.WF)
    (hnone : b.getValuePosition c = none) (_hmem : cand ∈ b.entries) :
    (BufferSet.mk (replaceValue b.entries cand.1 c)).WF := by
  obtain ⟨wf1, wf2, wf3⟩ := hwf
  have hfresh := assocGet_none_forall hnone
  refine ⟨?_, ?_, ?_⟩
  · show ((replaceValue b.entries cand.1 c).map Prod.fst).Nodup
    rw [replaceValue_map_fst]
    apply nodup_map_replaceKey
    · intro hc
      obtain ⟨e, he, hec⟩ := List.mem_map.1 hc
      exact hfresh e he hec
    · exact wf1
  · show ((replaceValue b.entries cand.1 c).map Prod.snd).Nodup
    rw [replaceValue_map_snd]
    exact wf2
  · intro e he
    show 0 ≤ e.2 ∧ e.2 < ((replaceValue b.entries cand.1 c).length : Int)
    rw [replaceValue_length]
    obtain ⟨x, hx, hxe⟩ := List.mem_map.1 he
    have := wf3 x hx
    by_cases hxo : x.1 = cand.1
    · rw [if_pos hxo] at hxe
      rw [← hxe]
      exact this
    · rw [if_neg hxo] at hxe
      rw [← hxe]
      exact this

theorem replaceFurthest_none (b : BufferSet) (lo hi v : Int)
    (h : furthestCandidate b.entries lo hi = none) :
    b.replaceFurthestValuePosition lo hi v = none := by
  rw [BufferSet.replaceFurthestValuePosition, h]

theorem replaceFurthest_some (b : BufferSet) (lo hi v : Int) (cand : Int × Int)
    (h : furthestCandidate b.entries lo hi = some cand) :
    b.replaceFurthestValuePosition lo hi v
      = some (cand.2, BufferSet.mk (replaceValue b.entries cand.1 v)) := by
  rw [BufferSet.replaceFurthestValuePosition, h]

theorem WF_pos_inj (b : BufferSet) (hwf : b.WF) (v1 v2 q : Int)
    (h1 : b.getValuePosition v1 = some q) (h2 : b.getValuePosition v2 = some q) :
    v1 = v2 := by
  have m1 := assocGet_mem h1
  have m2 := assocGet_mem h2
  have := List.inj_on_of_nodup_map hwf.2.1 m1 m2 rfl
  exact congrArg Prod.fst this

theorem add_reuse (c : Int) (b : BufferSet) (lo hi m p : Int)
    (h : b.getValuePosition c = some p) :
    addColumnToBuffer c b lo hi m = (p, b) := by
  rw [addColumnToBuffer, h]

theorem addColumnToBuffer_none_eq (c : Int) (b : BufferSet) (lo hi m : Int)
    (hv : b.getValuePosition c = none) :
    addColumnToBuffer c b lo hi m =
      if m ≤ b.getSize then
        match b.replaceFurthestValuePosition lo (hi - 1) c with
        | some pr => pr
        | none => b.getNewPositionForValue c
      else b.getNewPositionForValue c := by
  rw [addColumnToBuffer, hv]

theorem add_maps (c : Int) (b : BufferSet) (lo hi m : Int) (hwf : b.WF) :
    (addColumnToBuffer c b lo hi m).2.getValuePosition c
      = some (addColumnToBuffer c b lo hi m).1 := by
  cases hv : b.getValuePosition c with
  | some p =>
    rw [add_reuse c b lo hi m p hv]
    exact hv
  | none =>
    rw [addColumnToBuffer_none_eq c b lo hi m hv]
    by_cases hcap : m ≤ b.getSize
    · rw [if_pos hcap]
      cases hfc : furthestCandidate b.entries lo (hi - 1) with
      | none =>
        rw [replaceFurthest_none b lo (hi - 1) c hfc]
        exact fresh_maps b c hv
      | some cand =>
        rw [replaceFurthest_some b lo (hi - 1) c cand hfc]
        show assocGet (replaceValue b.entries cand.1 c) c = some cand.2
        obtain ⟨hm, _⟩ := furthestCandidate_spec b.entries lo (hi - 1) cand hfc
        have hcand : (cand.1, cand.2) ∈ b.entries := by simpa using hm
        exact assocGet_replaceValue_self cand.1 c cand.2 b.entries hwf.1 hcand
          (assocGet_none_forall hv)
    · rw [if_neg hcap]
      exact fresh_maps b c hv

theorem add_WF (c : Int) (b : BufferSet) (lo hi m : Int) (hwf : b.WF) :
    (addColumnToBuffer c b lo hi m).2.WF := by
  cases hv : b.getValuePosition c with
  | some p =>
    rw [add_reuse c b lo hi m p hv]
    exact hwf
  | none =>
    rw [addColumnToBuffer_none_eq c b lo hi m hv]
    by_cases hcap : m ≤ b.getSize
    · rw [if_pos hcap]
      cases hfc : furthestCandidate b.entries lo (hi - 1) with
      | none =>
        rw [replaceFurthest_none b lo (hi - 1) c hfc]
        exact fresh_WF b c hwf hv
      | some cand =>
        rw [replaceFurthest_some b lo (hi - 1) c cand hfc]
        exact evict_WF b c cand hwf hv
          (furthestCandidate_spec b.entries lo (hi - 1) cand hfc).1
    · rw [if_neg hcap]
      exact fresh_WF b c hwf hv

theorem add_preserve (c : Int) (b : BufferSet) (lo hi m v p : Int)
    (hin1 : lo ≤ v) (hin2 : v ≤ hi - 1)
    (hv : b.getValuePosition v = some p) :
    (addColumnToBuffer c b lo hi m).2.getValuePosition v = some p := by
  cases hvc : b.getValuePosition c with
  | some q =>
    rw [add_reuse c b lo hi m q hvc]
    exact hv
  | none =>
    have hne : v ≠ c := by
      intro h
      rw [h, hvc] at hv
      simp at hv
    rw [addColumnToBuffer_none_eq c b lo hi m hvc]
    by_cases hcap : m ≤ b.getSize
    · rw [if_pos hcap]
      cases hfc : furthestCandidate b.entries lo (hi - 1) with
      | none =>
        rw [replaceFurthest_none b lo (hi - 1) c hfc]
        exact fresh_preserve b c v p hv
      | some cand =>
        rw [replaceFurthest_some b lo (hi - 1) c cand hfc]
        obtain ⟨hm, hout⟩ := furthestCandidate_spec b.entries lo (hi - 1) cand hfc
        have h1 : v ≠ cand.1 := by rcases hout with h | h <;> omega
        show assocGet (replaceValue b.entries cand.1 c) v = some p
        rw [assocGet_replaceValue_other b.entries cand.1 c v h1 hne]
        exact hv
    · rw [if_neg hcap]
      exact fresh_preserve b c v p hv

/-! ### Loop invariants for slot assignment -/

theorem offsetsLoop_keep (w : List Nat) (sR eR m v p : Int)
    (hin1 : sR ≤ v) (hin2 : v ≤ eR - 1) :
    ∀ (fuel : Nat) (idx run : Int) (bset : BufferSet) (offsets cols : List (Int × Int)),
      bset.WF → bset.getValuePosition v = some p → v < idx →
      assocGet cols p = some v →
      assocGet (offsetsLoop w sR eR m fuel idx run bset offsets cols).columns p = some v ∧
      (offsetsLoop w sR eR m fuel idx run bset offsets cols).bufferSet.getValuePosition v
        = some p ∧
      (offsetsLoop w sR eR m fuel idx run bset offsets cols).bufferSet.WF := by
  intro fuel
  induction fuel with
  | zero =>
    intro idx run bset offsets cols hwf hv _ hcols
    exact ⟨hcols, hv, hwf⟩
  | succ n ih =>
    intro idx run bset offsets cols hwf hv hlt hcols
    simp only [offsetsLoop]
    have hwf2 := add_WF idx bset sR eR m hwf
    have hv2 := add_preserve idx bset sR eR m v p hin1 hin2 hv
    have hmapsidx := add_maps idx bset sR eR m hwf
    have hpn : (addColumnToBuffer idx bset sR eR m).1 ≠ p := by
      intro hp
      have heq := WF_pos_inj _ hwf2 idx v _ (hp ▸ hmapsidx) hv2
      omega
    have hcols2 : assocGet (setSlot cols (addColumnToBuffer idx bset sR eR m).1 idx) p
        = some v := by
      rw [setSlot_get_ne _ _ _ _ (fun h => hpn h.symm)]
      exact hcols
    exact ih (idx + 1) _ _ _ _ hwf2 hv2 (by omega) hcols2

theorem offsetsLoop_processes (w : List Nat) (sR eR m c : Int)
    (hin1 : sR ≤ c) (hin2 : c < eR) :
    ∀ (fuel : Nat) (idx run : Int) (bset : BufferSet) (offsets cols : List (Int × Int)),
      bset.WF → idx ≤ c → (c - idx).toNat < fuel →
      ∃ p, assocGet (offsetsLoop w sR eR m fuel idx run bset offsets cols).columns p
          = some c ∧
        (offsetsLoop w sR eR m fuel idx run bset offsets cols).bufferSet.getValuePosition c
          = some p ∧
        (offsetsLoop w sR eR m fuel idx run bset offsets cols).bufferSet.WF ∧
        (∀ p0, bset.getValuePosition c = some p0 → p = p0) := by
  intro fuel
  induction fuel with
  | zero =>
    intro idx run bset offsets cols _ _ h3
    omega
  | succ n ih =>
    intro idx run bset offsets cols hwf hle hfuel
    simp only [offsetsLoop]
    by_cases hic : idx = c
    · subst hic
      have hmaps := add_maps idx bset sR eR m hwf
      have hwf2 := add_WF idx bset sR eR m hwf
      have hkeep := offsetsLoop_keep w sR eR m idx (addColumnToBuffer idx bset sR eR m).1
        hin1 (by omega) n (idx + 1) (run + colWidth w idx)
        (addColumnToBuffer idx bset sR eR m).2 (offsets ++ [(idx, run)])
        (setSlot cols (addColumnToBuffer idx bset sR eR m).1 idx)
        hwf2 hmaps (by omega) (setSlot_get_self _ _ _)
      refine ⟨(addColumnToBuffer idx bset sR eR m).1, hkeep.1, hkeep.2.1, hkeep.2.2, ?_⟩
      intro p0 hp0
      rw [add_reuse idx bset sR eR m p0 hp0]
    · have hwf2 := add_WF idx bset sR eR m hwf
      obtain ⟨p, h1, h2, h3, h4⟩ := ih (idx + 1) (run + colWidth w idx)
        (addColumnToBuffer idx bset sR eR m).2 (offsets ++ [(idx, run)])
        (setSlot cols (addColumnToBuffer idx bset sR eR m).1 idx)
        hwf2 (by omega) (by omega)
      refine ⟨p, h1, h2, h3, ?_⟩
      intro p0 hp0
      exact h4 p0 (add_preserve idx bset sR eR m c p0 hin1 (by omega) hp0)

theorem offsets_call_processes (s : ColState) (r : ColumnRange) (vo : Bool) (c : Int)
    (hwf : s.columnBufferSet.WF)
    (hnz : r.endBufferCol - r.firstBufferCol ≠ 0)
    (hc1 : windowStart r vo ≤ c) (hc2 : c < windowEnd r vo) :
    ∃ p, assocGet (computeRenderedColumnOffsets s r vo).columnsToRender p = some c ∧
      (computeRenderedColumnOffsets s r vo).columnBufferSet.getValuePosition c = some p ∧
      (computeRenderedColumnOffsets s r vo).columnBufferSet.WF ∧
      ∀ p0, s.columnBufferSet.getValuePosition c = some p0 → p = p0 := by
  unfold computeRenderedColumnOffsets offsetsCore
  rw [if_neg hnz]
  dsimp only
  exact offsetsLoop_processes s.scrollableColumns (windowStart r vo) (windowEnd r vo)
    (r.endBufferCol - r.firstBufferCol) c hc1 hc2
    ((windowEnd r vo - windowStart r vo).toNat) (windowStart r vo)
    (sumUntil s.scrollableColumns (windowStart r vo)) s.columnBufferSet [] []
    hwf hc1 (by omega)

theorem offsetsLoop_cols_length (w : List Nat) (sR eR m : Int) :
    ∀ (fuel : Nat) (idx run : Int) (bset : BufferSet) (offsets cols : List (Int × Int)),
      (offsetsLoop w sR eR m fuel idx run bset offsets cols).columns.length
        ≤ cols.length + fuel := by
  intro fuel
  induction fuel with
  | zero =>
    intro idx run bset offsets cols
    simp [offsetsLoop]
  | succ n ih =>
    intro idx run bset offsets cols
    simp only [offsetsLoop]
    have h1 := ih (idx + 1) (run + colWidth w idx)
      (addColumnToBuffer idx bset sR eR m).2 (offsets ++ [(idx, run)])
      (setSlot cols (addColumnToBuffer idx bset sR eR m).1 idx)
    have h2 := setSlot_length_le cols (addColumnToBuffer idx bset sR eR m).1 idx
    omega

/-- C6: slot stability.  A column that already has a slot in the allocator is
returned that slot with the allocator unchanged, whatever the window; and a
column lying in the windows of two consecutive offset computations occupies
the same slot of `columnsToRender` after both calls. -/
theorem claim_C6 :
    (∀ (c : Int) (b : BufferSet) (lo hi m p : Int),
       b.getValuePosition c = some p →
       addColumnToBuffer c b lo hi m = (p, b)) ∧
    (∀ (s : ColState) (r1 r2 : ColumnRange) (vo1 vo2 : Bool) (c : Int),
       s.columnBufferSet.WF →
       r1.endBufferCol - r1.firstBufferCol ≠ 0 →
       r2.endBufferCol - r2.firstBufferCol ≠ 0 →
       windowStart r1 vo1 ≤ c → c < windowEnd r1 vo1 →
       windowStart r2 vo2 ≤ c → c < windowEnd r2 vo2 →
       ∃ p, assocGet (computeRenderedColumnOffsets s r1 vo1).columnsToRender p = some c ∧
         assocGet (computeRenderedColumnOffsets
           (computeRenderedColumnOffsets s r1 vo1) r2 vo2).columnsToRender p = some c) := by
  constructor
  · intro c b lo hi m p h
    exact add_reuse c b lo hi m p h
  · intro s r1 r2 vo1 vo2 c hwf hz1 hz2 ha1 ha2 hb1 hb2
    obtain ⟨p, hcols1, hmaps1, hwf1, _⟩ := offsets_call_processes s r1 vo1 c hwf hz1 ha1 ha2
    obtain ⟨q, hcols2, _, _, hq⟩ := offsets_call_processes
      (computeRenderedColumnOffsets s r1 vo1) r2 vo2 c hwf1 hz2 hb1 hb2
    have hqp : q = p := hq p hmaps1
    exact ⟨p, hcols1, hqp ▸ hcols2⟩

/-- C6 witness: column 1 of the forward demo window keeps its slot across two
consecutive offset computations over the same window. -/
theorem claim_C6_witness :
    ∃ p, assocGet (computeRenderedColumnOffsets demoState demoRange false).columnsToRender p
        = some 1 ∧
      assocGet (computeRenderedColumnOffsets
        (computeRenderedColumnOffsets demoState demoRange false)
        demoRange false).columnsToRender p = some 1 :=
  claim_C6.2 demoState demoRange demoRange false false 1
    (by simp [demoState, BufferSet.WF]) (by decide) (by decide)
    (by decide) (by decide) (by decide) (by decide)

/-- C7: when a column has no slot, the allocator is at capacity, and every
tracked column lies inside the closed window `[startRange, endRange - 1]`,
the eviction request returns no candidate, the algorithm falls through to a
fresh slot, and the tracked count grows past the nominal buffer span size;
no error occurs. -/
theorem claim_C7 (b : BufferSet) (c startRange endRange m : Int)
    (hnone : b.getValuePosition c = none)
    (hcap : m ≤ b.getSize)
    (hinside : ∀ e ∈ b.entries, startRange ≤ e.1 ∧ e.1 ≤ endRange - 1) :
    b.replaceFurthestValuePosition startRange (endRange - 1) c = none ∧
    addColumnToBuffer c b startRange endRange m = b.getNewPositionForValue c ∧
    (addColumnToBuffer c b startRange endRange m).2.getSize = b.getSize + 1 ∧
    m < (addColumnToBuffer c b startRange endRange m).2.getSize := by
  have hfc : furthestCandidate b.entries startRange (endRange - 1) = none :=
    furthestCandidate_none b.entries startRange (endRange - 1) hinside
  have hrf : b.replaceFurthestValuePosition startRange (endRange - 1) c = none :=
    replaceFurthest_none b startRange (endRange - 1) c hfc
  have hadd : addColumnToBuffer c b startRange endRange m = b.getNewPositionForValue c := by
    rw [addColumnToBuffer_none_eq c b startRange endRange m hnone, if_pos hcap, hrf]
  have hsize : (b.getNewPositionForValue c).2.getSize = b.getSize + 1 := by
    show ((b.entries ++ [(c, (b.entries.length : Int))]).length : Int)
      = (b.entries.length : Int) + 1
    rw [List.length_append]
    simp
  refine ⟨hrf, hadd, ?_, ?_⟩
  · rw [hadd]
    exact hsize
  · rw [hadd, hsize]
    omega

/-- C7 witness: an allocator tracking columns 0 and 1 (both inside the window
`[0, 1]`), at capacity 2, receives column 5: no eviction candidate exists, a
fresh slot 2 is allocated, and the tracked count grows to 3 > 2. -/
theorem claim_C7_witness :
    (BufferSet.mk [(0, 0), (1, 1)]).replaceFurthestValuePosition 0 (2 - 1) 5 = none ∧
    addColumnToBuffer 5 (BufferSet.mk [(0, 0), (1, 1)]) 0 2 2
      = (BufferSet.mk [(0, 0), (1, 1)]).getNewPositionForValue 5 ∧
    (addColumnToBuffer 5 (BufferSet.mk [(0, 0), (1, 1)]) 0 2 2).2.getSize
      = (BufferSet.mk [(0, 0), (1, 1)]).getSize + 1 ∧
    (2 : Int) < (addColumnToBuffer 5 (BufferSet.mk [(0, 0), (1, 1)]) 0 2 2).2.getSize :=
  claim_C7 (BufferSet.mk [(0, 0), (1, 1)]) 5 0 2 2 (by decide) (by decide) (by decide)

/-- C8: after a call to the offsets assignor on a well-ordered range
(buffer span containing the viewport span), the number of slots occupied in
`columnsToRender` never exceeds the buffer span size
`endBufferCol - firstBufferCol`. -/
theorem claim_C8 (s : ColState) (r : ColumnRange) (vo : Bool)
    (h1 : r.firstBufferCol ≤ r.firstViewportCol)
    (h2 : r.endViewportCol ≤ r.endBufferCol) :
    (computeRenderedColumnOffsets s r vo).columnsToRender.length
      ≤ (r.endBufferCol - r.firstBufferCol).toNat := by
  unfold computeRenderedColumnOffsets offsetsCore
  by_cases hz : r.endBufferCol - r.firstBufferCol = 0
  · rw [if_pos hz]
    simp
  · rw [if_neg hz]
    dsimp only
    have hb := offsetsLoop_cols_length s.scrollableColumns (windowStart r vo)
      (windowEnd r vo) (r.endBufferCol - r.firstBufferCol)
      ((windowEnd r vo - windowStart r vo).toNat) (windowStart r vo)
      (sumUntil s.scrollableColumns (windowStart r vo)) s.columnBufferSet [] []
    have hw : (windowEnd r vo - windowStart r vo).toNat
        ≤ (r.endBufferCol - r.firstBufferCol).toNat := by
      unfold windowStart windowEnd
      cases vo
      · simp
      · simp
        omega
    simp only [List.length_nil] at hb
    omega

/-- C8 witness: at the forward demo scenario window the output occupies 3
slots, within the buffer span size 3. -/
theorem claim_C8_witness :
    (computeRenderedColumnOffsets demoState demoRange false).columnsToRender.length
      ≤ (demoRange.endBufferCol - demoRange.firstBufferCol).toNat :=
  claim_C8 demoState demoRange false (by decide) (by decide)
